import Mathlib

/-!
Formal model of the redflags-historical canonicalization and deduplication
pipeline (src/convert_parquet.py and src/drop_double.py).

Strings are modelled as lists of characters.  Decimal values are exact
integer significands (no binary floating point anywhere).  Dataframe
columns are lists of optional strings; a `none` entry is a null cell.

Library semantics used by the source are modelled as follows:
* `cast(pl.Decimal(p, s))` from a string: exact arbitrary-precision decimal
  parse.  The overflow policy is modelled from the spec (PrecisionOverflow
  when fractional digits exceed the scale, RangeOverflow when significant
  digits exceed the precision), because the repository does not pin the
  numeric library's implicit overflow behaviour.
* `str.strptime(pl.Date, fmt, strict=False)`: exact fixed-width parse with
  strict calendar validation, null on failure.
* `when/then/otherwise`: both branches are evaluated over the whole column,
  so a strict `cast(pl.Int64)` in the taken-or-not branch fails the whole
  column as soon as any non-null entry is not an integer literal.
* `sort`: ascending unless stated, `nulls_last=False` places null sort keys
  first (for ascending and descending columns alike).  The source never
  passes `maintain_order`, so polars fixes no order among equal-key rows;
  the model's insertion sort realizes one admissible output order, and the
  theorems assert only properties that hold for every admissible order
  (or evaluate concrete inputs without equal-key ties).
* `unique(subset, keep="first")`: keeps the first row of each key group in
  the current frame order; null keys compare equal to each other.
-/

namespace RedFlags

abbrev Str := List Char

/-- Digit table: value of a decimal digit character, 10 for any other char. -/
def digitTab : Char → Nat
  | '0' => 0
  | '1' => 1
  | '2' => 2
  | '3' => 3
  | '4' => 4
  | '5' => 5
  | '6' => 6
  | '7' => 7
  | '8' => 8
  | '9' => 9
  | _ => 10

/-- Numeric value of a decimal digit character, none for any other char. -/
def digitVal (c : Char) : Option Nat :=
  if digitTab c < 10 then some (digitTab c) else none

/-- Character for a decimal digit value. -/
def charOfDigit : Nat → Char
  | 0 => '0'
  | 1 => '1'
  | 2 => '2'
  | 3 => '3'
  | 4 => '4'
  | 5 => '5'
  | 6 => '6'
  | 7 => '7'
  | 8 => '8'
  | _ => '9'

/-- Value of a most-significant-first digit list. -/
def digitsToNat : List Nat → Nat
  | [] => 0
  | d :: t => d * 10 ^ t.length + digitsToNat t

/-- Fuelled digit expansion, most significant digit first. -/
def natToDigitsGo : Nat → Nat → List Nat
  | 0, _ => []
  | fuel + 1, n => if n < 10 then [n] else natToDigitsGo fuel (n / 10) ++ [n % 10]

/-- Digit list of a natural number, most significant first; `0` gives `[0]`. -/
def natToDigits (n : Nat) : List Nat := natToDigitsGo (n + 1) n

/-- Left-pad a digit list with zeros to length `k`. -/
def padDigits (k : Nat) (l : List Nat) : List Nat := List.replicate (k - l.length) 0 ++ l

/-- Number of decimal digits of `n` (1 for 0). -/
def natDigitCount (n : Nat) : Nat := (natToDigits n).length

/-- Digit values of a string, none if any character is not a digit. -/
def digitValsOf : Str → Option (List Nat)
  | [] => some []
  | c :: t =>
    match digitVal c, digitValsOf t with
    | some d, some ds => some (d :: ds)
    | _, _ => none

/-- Split a string at the first dot, keeping the rest unanalysed. -/
def splitDot : Str → Str × Option Str
  | [] => ([], none)
  | c :: t =>
    if c = '.' then ([], some t)
    else
      let r := splitDot t
      (c :: r.1, r.2)

/-- Strip a leading sign character. -/
def stripSign : Str → Bool × Str
  | [] => (false, [])
  | c :: t => if c = '-' then (true, t) else if c = '+' then (false, t) else (false, c :: t)

/-- Lex a decimal literal into sign, integer digits and fractional digits.
Grammar (spec section 4.2): sign, integer digits, optional fractional
digits, no exponent form. -/
def decLex (s : Str) : Option (Bool × List Nat × List Nat) :=
  match stripSign s with
  | (neg, rest) =>
    match splitDot rest with
    | (ip, fp) =>
      match digitValsOf ip, fp with
      | some I, none => if I.isEmpty then none else some (neg, I, [])
      | some I, some f =>
        match digitValsOf f with
        | some F => if I.isEmpty || F.isEmpty then none else some (neg, I, F)
        | none => none
      | none, _ => none

/-- Errors a column conversion can raise. -/
inductive ConvErr
  | castFailed
  | precisionOverflow
  | rangeOverflow
  deriving DecidableEq

/-- Modelled from the spec: exact string-to-decimal conversion used by the
`cast(pl.Decimal(precision, scale))` expressions of convert_parquet.py and
drop_double.py.  The repository delegates overflow handling to the numeric
library (spec section 9 notes the ambiguity); the spec's explicit policy is
modelled: fractional digits beyond `scale` are a PrecisionOverflow, more
significant digits than `precision` are a RangeOverflow, otherwise the value
is stored exactly as an integer significand scaled to `scale`.  No binary
floating-point representation is involved at any step. -/
def parseDecimal (s : Str) (precision scale : Nat) : Except ConvErr Int :=
  match decLex s with
  | none => .error .castFailed
  | some (neg, I, F) =>
    if scale < F.length then .error .precisionOverflow
    else if precision < natDigitCount (digitsToNat (I ++ F)) then .error .rangeOverflow
    else
      let m : Nat := digitsToNat (I ++ F) * 10 ^ (scale - F.length)
      .ok (if neg then -(m : Int) else (m : Int))

/-- Decimal formatting with exactly `scale` fractional digits (polars
decimal display / parquet serialization of a Decimal column). -/
def formatDecimal (v : Int) (scale : Nat) : Str :=
  (if v < 0 then ['-'] else []) ++
    (natToDigits (v.natAbs / 10 ^ scale)).map charOfDigit ++
    (if scale = 0 then []
     else '.' :: (padDigits scale (natToDigits (v.natAbs % 10 ^ scale))).map charOfDigit)

/-- Claim-side definition, from the spec's words: canonical zero-padding of
a decimal string's fractional part to exactly `scale` digits. -/
def padToScale (s : Str) (scale : Nat) : Str :=
  if scale = 0 then s
  else
    match splitDot s with
    | (i, none) => i ++ '.' :: List.replicate scale '0'
    | (i, some f) => i ++ '.' :: (f ++ List.replicate (scale - f.length) '0')

/-- Render a structured decimal literal (sign, integer digits, fractional
digits) as a string; every decimal literal string arises this way. -/
def renderLit (neg : Bool) (I F : List Nat) : Str :=
  (if neg then ['-'] else []) ++ I.map charOfDigit ++
    (if F.isEmpty then [] else '.' :: F.map charOfDigit)

/-- The exact value `parseDecimal` stores for an in-range literal. -/
def decValOf (neg : Bool) (I F : List Nat) (scale : Nat) : Int :=
  let m : Nat := digitsToNat (I ++ F) * 10 ^ (scale - F.length)
  if neg then -(m : Int) else (m : Int)

/- ## Dates -/

/-- Gregorian leap year. -/
def isLeap (y : Nat) : Bool := (y % 4 = 0 && y % 100 ≠ 0) || y % 400 = 0

/-- Days in a month of the proleptic Gregorian calendar. -/
def daysInMonth (y m : Nat) : Nat :=
  if m = 2 then (if isLeap y then 29 else 28)
  else if m = 4 ∨ m = 6 ∨ m = 9 ∨ m = 11 then 30
  else 31

/-- Strict calendar validity of a (year, month, day) triple, year
restricted to the four-digit range of the YYYYMMDD encoding. -/
def validCivil (y m d : Nat) : Bool :=
  1 ≤ m && m ≤ 12 && 1 ≤ d && d ≤ daysInMonth y m && y ≤ 9999

/-- Parse the strict 8-digit YYYYMMDD form of the "date" field
(`str.strptime(pl.Date, "%Y%m%d", strict=False)`): invalid input gives
null, never an error. -/
def parse8 (s : Str) : Option (Nat × Nat × Nat) :=
  match digitValsOf s with
  | none => none
  | some ds =>
    match ds with
    | [y1, y2, y3, y4, m1, m2, d1, d2] =>
      let y := digitsToNat [y1, y2, y3, y4]
      let m := digitsToNat [m1, m2]
      let d := digitsToNat [d1, d2]
      if validCivil y m d then some (y, m, d) else none
    | _ => none

/-- Parse the strict 10-character YYYY-MM-DD form
(`str.strptime(pl.Date, "%Y-%m-%d", strict=False)`). -/
def parse10 (s : Str) : Option (Nat × Nat × Nat) :=
  match s with
  | [a, b, c, d, h1, e, f, h2, g, h] =>
    if h1 = '-' && h2 = '-' then
      match digitValsOf [a, b, c, d], digitValsOf [e, f], digitValsOf [g, h] with
      | some Y, some M, some D =>
        let y := digitsToNat Y
        let m := digitsToNat M
        let dd := digitsToNat D
        if validCivil y m dd then some (y, m, dd) else none
      | _, _, _ => none
    else none
  | _ => none

/-- Claim-side predicate, from the spec's words: the raw value is exactly
the 8-digit YYYYMMDD form whose digit groups form a strict calendar date. -/
def specStrictDate (s : Str) : Prop :=
  ∃ ds : List Nat, s = ds.map charOfDigit ∧ ds.length = 8 ∧ (∀ d ∈ ds, d < 10) ∧
    validCivil (digitsToNat (ds.take 4)) (digitsToNat ((ds.drop 4).take 2))
      (digitsToNat (ds.drop 6)) = true

/-- Civil date from a nonnegative count of days since 1970-01-01
(Howard Hinnant's civil-from-days algorithm, UTC, no timezone shift). -/
def civilFromDays (z : Nat) : Nat × Nat × Nat :=
  let zz := z + 719468
  let era := zz / 146097
  let doe := zz % 146097
  let yoe := (doe - doe / 1460 + doe / 36524 - doe / 146097) / 365
  let y0 := yoe + era * 400
  let doy := doe - (365 * yoe + yoe / 4 - yoe / 100)
  let mp := (5 * doy + 2) / 153
  let d := doy - (153 * mp + 2) / 5 + 1
  let m := if mp < 10 then mp + 3 else mp - 9
  (if m ≤ 2 then y0 + 1 else y0, m, d)

/-- Millisecond Unix epoch timestamp to calendar date: floor division by
86400000 then civil conversion (`cast(pl.Datetime("ms")).cast(pl.Date)`). -/
def epochMsToDate (ms : Nat) : Nat × Nat × Nat := civilFromDays (ms / 86400000)

/-- Largest value of a signed 64-bit integer. -/
def int64Max : Nat := 9223372036854775807

/-- The strict `cast(pl.Int64)` of a string: optional sign, digits,
64-bit range; none means the cast fails (and fails the whole column). -/
def parseInt64 (s : Str) : Option Int :=
  let p := stripSign s
  match digitValsOf p.2 with
  | none => none
  | some ds =>
    if ds.isEmpty then none
    else
      let n := digitsToNat ds
      if p.1 then (if n ≤ int64Max + 1 then some (-(n : Int)) else none)
      else (if n ≤ int64Max then some (n : Int) else none)

/-- The regex `^[0-9]+$` of the birthDate disambiguation. -/
def matchesAllDigits (s : Str) : Bool := !s.isEmpty && s.all (fun c => (digitVal c).isSome)

/- ## Typed values and column conversion (convert_parquet.py) -/

/-- Typed cell values of the canonical dataset. -/
inductive TValue
  | vDate (y m d : Nat)
  | vCat (s : Str)
  | vDec (significand : Int) (scale : Nat)
  | vBool (b : Bool)
  deriving DecidableEq

/-- Target column types of the two schemas. -/
inductive PlType
  | pDate
  | pCategorical
  | pBoolean
  | pDecimal (precision scale : Nat)
  deriving DecidableEq

/-- One cell of the "date" column. -/
def dateEntry8 (o : Option Str) : Option TValue :=
  o.bind fun s => (parse8 s).map fun t => TValue.vDate t.1 t.2.1 t.2.2

/-- The "date" column: strict=False parsing never fails the column. -/
def dateCol8 (col : List (Option Str)) : Except ConvErr (List (Option TValue)) :=
  .ok (col.map dateEntry8)

/-- One cell of a YYYY-MM-DD date column. -/
def dateEntry10 (o : Option Str) : Option TValue :=
  o.bind fun s => (parse10 s).map fun t => TValue.vDate t.1 t.2.1 t.2.2

/-- A YYYY-MM-DD date column, strict=False. -/
def dateCol10 (col : List (Option Str)) : Except ConvErr (List (Option TValue)) :=
  .ok (col.map dateEntry10)

/-- One cell of the birthDate expression, as selected by the
`^[0-9]+$` mask: epoch branch for all-digit strings, YYYY-MM-DD branch
otherwise. -/
def birthEntry (o : Option Str) : Option TValue :=
  o.bind fun s =>
    if matchesAllDigits s then
      let t := epochMsToDate (digitsToNat ((digitValsOf s).getD []))
      some (TValue.vDate t.1 t.2.1 t.2.2)
    else (parse10 s).map fun t => TValue.vDate t.1 t.2.1 t.2.2

/-- The birthDate column.  `when/then/otherwise` evaluates both branches
over the whole column, and the epoch branch starts with a strict
`cast(pl.Int64)`: the conversion of the entire column fails as soon as any
non-null entry is not an Int64 literal. -/
def birthCol (col : List (Option Str)) : Except ConvErr (List (Option TValue)) :=
  if col.all (fun o => match o with | none => true | some s => (parseInt64 s).isSome)
  then .ok (col.map birthEntry)
  else .error .castFailed

/-- One cell of a decimal column: the `when(col == "").then(None)`
guard maps empty strings to null before the cast. -/
def decEntry (precision scale : Nat) (o : Option Str) : Except ConvErr (Option TValue) :=
  match o with
  | none => .ok none
  | some s =>
    if s.isEmpty then .ok none
    else (parseDecimal s precision scale).map fun v => some (TValue.vDec v scale)

/-- Error-propagating map over a list. -/
def exceptMapM (f : α → Except ConvErr β) : List α → Except ConvErr (List β)
  | [] => .ok []
  | a :: t =>
    match f a, exceptMapM f t with
    | .ok b, .ok bs => .ok (b :: bs)
    | .error e, _ => .error e
    | .ok _, .error e => .error e

/-- A decimal column: any cell that fails the cast fails the column. -/
def decimalCol (precision scale : Nat) (col : List (Option Str)) :
    Except ConvErr (List (Option TValue)) :=
  exceptMapM (decEntry precision scale) col

/-- Boolean literals accepted as true. -/
def trueLits : List Str := ["True".toList, "true".toList, "1".toList, "TRUE".toList]

/-- Boolean literals accepted as false. -/
def falseLits : List Str := ["False".toList, "false".toList, "0".toList, "FALSE".toList]

/-- One cell of the boolean column: case-sensitive literal sets, anything
else (including empty) is null. -/
def boolEntry (o : Option Str) : Option TValue :=
  o.bind fun s =>
    if trueLits.contains s then some (TValue.vBool true)
    else if falseLits.contains s then some (TValue.vBool false)
    else none

/-- The boolean column never fails. -/
def boolCol (col : List (Option Str)) : Except ConvErr (List (Option TValue)) :=
  .ok (col.map boolEntry)

/-- One cell of a categorical column: empty string becomes null, anything
else keeps its text (dictionary encoding is internal). -/
def catEntry (o : Option Str) : Option TValue :=
  o.bind fun s => if s.isEmpty then none else some (TValue.vCat s)

/-- A categorical column never fails. -/
def catCol (col : List (Option Str)) : Except ConvErr (List (Option TValue)) :=
  .ok (col.map catEntry)

/-- Column dispatch of convert_to_parquet: the birthDate name is special
cased before the dtype dispatch; a Date column named "date" uses YYYYMMDD,
any other Date column uses YYYY-MM-DD. -/
def applyColType (name : Str) (ty : PlType) (col : List (Option Str)) :
    Except ConvErr (List (Option TValue)) :=
  if name = "birthDate".toList then birthCol col
  else
    match ty with
    | .pDate => if name = "date".toList then dateCol8 col else dateCol10 col
    | .pDecimal p s => decimalCol p s col
    | .pBoolean => boolCol col
    | .pCategorical => catCol col

/-- A raw dataframe: named string columns. -/
abbrev Frame := List (Str × List (Option Str))

/-- Look a column up by name. -/
def frameLookup (name : Str) : Frame → Option (List (Option Str))
  | [] => none
  | (n, c) :: t => if n = name then some c else frameLookup name t

/-- One target column: a source column entirely absent from the input
yields a fully null typed column (`pl.lit(None).cast(dtype)`), never an
error. -/
def convertColumn (frame : Frame) (n : Nat) (name : Str) (ty : PlType) :
    Except ConvErr (List (Option TValue)) :=
  match frameLookup name frame with
  | none => .ok (List.replicate n none)
  | some col => applyColType name ty col

/-- The schema transformation of convert_to_parquet: build each target
column in schema order (`df.select(column_expressions)` followed by
`select(list(target_schema.keys()))`), so the output column order is the
schema's declared order regardless of the input's column order. -/
def convertFrame (schema : List (Str × PlType)) (frame : Frame) (n : Nat) :
    Except ConvErr (List (Str × List (Option TValue))) :=
  exceptMapM (fun p => (convertColumn frame n p.1 p.2).map fun c => (p.1, c)) schema

/-- The billionaires target schema (get_billionaires_schema). -/
def get_billionaires_schema : List (Str × PlType) :=
  [("date".toList, .pDate),
   ("personName".toList, .pCategorical),
   ("lastName".toList, .pCategorical),
   ("birthDate".toList, .pDate),
   ("gender".toList, .pCategorical),
   ("countryOfCitizenship".toList, .pCategorical),
   ("city".toList, .pCategorical),
   ("state".toList, .pCategorical),
   ("source".toList, .pCategorical),
   ("industries".toList, .pCategorical),
   ("finalWorth".toList, .pDecimal 18 8),
   ("estWorthPrev".toList, .pDecimal 18 8),
   ("archivedWorth".toList, .pDecimal 18 8),
   ("privateAssetsWorth".toList, .pDecimal 18 8)]

/-- The assets target schema (get_assets_schema). -/
def get_assets_schema : List (Str × PlType) :=
  [("date".toList, .pDate),
   ("personName".toList, .pCategorical),
   ("companyName".toList, .pCategorical),
   ("currencyCode".toList, .pCategorical),
   ("currentPrice".toList, .pDecimal 18 11),
   ("exchange".toList, .pCategorical),
   ("exchangeRate".toList, .pDecimal 18 8),
   ("exerciseOptionPrice".toList, .pDecimal 18 11),
   ("interactive".toList, .pBoolean),
   ("numberOfShares".toList, .pDecimal 18 2),
   ("sharePrice".toList, .pDecimal 18 11),
   ("ticker".toList, .pCategorical)]

/- ## Deduplication (drop_double.py) -/

/-- A raw billionaires CSV row (get_billionaires_csv_schema order). -/
structure BillRow where
  date : Option Str
  personName : Option Str
  lastName : Option Str
  birthDate : Option Str
  gender : Option Str
  countryOfCitizenship : Option Str
  city : Option Str
  state : Option Str
  finalWorth : Option Str
  estWorthPrev : Option Str
  archivedWorth : Option Str
  privateAssetsWorth : Option Str
  source : Option Str
  industries : Option Str
  deriving DecidableEq

/-- A raw assets CSV row (get_assets_csv_schema order). -/
structure AssetRow where
  date : Option Str
  personName : Option Str
  numberOfShares : Option Str
  sharePrice : Option Str
  exchangeRate : Option Str
  ticker : Option Str
  companyName : Option Str
  currencyCode : Option Str
  exchange : Option Str
  interactive : Option Str
  deriving DecidableEq

/-- Null or empty string (`is_null() | (col == "")`). -/
def isEmptyOpt : Option Str → Bool
  | none => true
  | some s => s.isEmpty

/-- Garbage condition for billionaires: both name fields null or empty. -/
def billGarbage (r : BillRow) : Bool := isEmptyOpt r.personName && isEmptyOpt r.lastName

/-- Garbage condition for assets: personName null or empty. -/
def assetGarbage (r : AssetRow) : Bool := isEmptyOpt r.personName

/-- `df.filter(~condition)` for billionaires. -/
def filterBill (rows : List BillRow) : List BillRow := rows.filter fun r => !billGarbage r

/-- `df.filter(~condition)` for assets. -/
def filterAsset (rows : List AssetRow) : List AssetRow := rows.filter fun r => !assetGarbage r

/-- `fill_null("")`. -/
def fillNull (o : Option Str) : Str := o.getD []

/-- Billionaires dedup key: `concat_str([date, personName.fill_null(""),
lastName.fill_null("")], separator="|")`.  The date field is not
null-filled, so a null date makes the whole key null. -/
def billKey (r : BillRow) : Option Str :=
  r.date.map fun d =>
    d ++ '|' :: (fillNull r.personName ++ '|' :: fillNull r.lastName)

/-- Assets dedup key over the eight identity columns, date not null-filled. -/
def assetKey (r : AssetRow) : Option Str :=
  r.date.map fun d =>
    d ++ '|' :: (fillNull r.personName ++ '|' :: (fillNull r.ticker ++ '|' ::
      (fillNull r.companyName ++ '|' :: (fillNull r.currencyCode ++ '|' ::
        (fillNull r.exchange ++ '|' :: (fillNull r.interactive ++ '|' ::
          fillNull r.exchangeRate))))))

/-- finalWorth_decimal: empty to null, then cast to Decimal(18, 8). -/
def billDecVal (r : BillRow) : Except ConvErr (Option Int) :=
  match r.finalWorth with
  | none => .ok none
  | some s => if s.isEmpty then .ok none else (parseDecimal s 18 8).map some

/-- numberOfShares_decimal: empty to null, then cast to Decimal(18, 2). -/
def assetDecVal (r : AssetRow) : Except ConvErr (Option Int) :=
  match r.numberOfShares with
  | none => .ok none
  | some s => if s.isEmpty then .ok none else (parseDecimal s 18 2).map some

/-- Lexicographic byte-order comparison of strings. -/
def strLtB : Str → Str → Bool
  | [], [] => false
  | [], _ :: _ => true
  | _ :: _, [] => false
  | a :: s, b :: t => if a < b then true else if b < a then false else strLtB s t

/-- Ascending order on an optional key column with `nulls_last=False`:
null sorts before every value. -/
def optStrLt : Option Str → Option Str → Bool
  | none, none => false
  | none, some _ => true
  | some _, none => false
  | some a, some b => strLtB a b

/-- Descending order on the decimal ranking column with
`nulls_last=False`: null still sorts first, then larger values first. -/
def decDescLt : Option Int → Option Int → Bool
  | none, none => false
  | none, some _ => true
  | some _, none => false
  | some a, some b => decide (b < a)

/-- A record carried with its dedup key and decimal ranking value. -/
abbrev KRow (ρ : Type) := ρ × Option Str × Option Int

/-- Row order of `sort(["dedup_key", sort_col], descending=[False, True])`. -/
def krLt (a b : KRow ρ) : Bool :=
  if optStrLt a.2.1 b.2.1 then true
  else if optStrLt b.2.1 a.2.1 then false
  else decDescLt a.2.2 b.2.2

/-- Insert into a sorted list, after all entries not strictly greater:
earlier input stays first among ties. -/
def insertOrd (lt : α → α → Bool) (a : α) : List α → List α
  | [] => [a]
  | b :: t => if lt b a then b :: insertOrd lt a t else a :: b :: t

/-- Stable insertion sort. -/
def sortOrd (lt : α → α → Bool) : List α → List α
  | [] => []
  | a :: t => insertOrd lt a (sortOrd lt t)

/-- `unique(subset=["dedup_key"], keep="first")`: keep the first row of
each key group in the current order; null keys form one group. -/
def uniqueFirstByKey (seen : List (Option Str)) : List (KRow ρ) → List ρ
  | [] => []
  | (r, k, _) :: t =>
    if k ∈ seen then uniqueFirstByKey seen t
    else r :: uniqueFirstByKey (k :: seen) t

/-- Attach key and decimal ranking value to every billionaires row. -/
def billKeyed (rows : List BillRow) : Except ConvErr (List (KRow BillRow)) :=
  exceptMapM (fun r => (billDecVal r).map fun d => (r, billKey r, d)) rows

/-- Attach key and decimal ranking value to every assets row. -/
def assetKeyed (rows : List AssetRow) : Except ConvErr (List (KRow AssetRow)) :=
  exceptMapM (fun r => (assetDecVal r).map fun d => (r, assetKey r, d)) rows

/-- clean_and_deduplicate for dataset_type "billionaires": filter garbage
rows, key, sort by (key asc, finalWorth_decimal desc) with nulls first,
keep the first row per key, drop the temporary columns. -/
def clean_and_deduplicate_billionaires (rows : List BillRow) : Except ConvErr (List BillRow) :=
  (billKeyed (filterBill rows)).map fun keyed => uniqueFirstByKey [] (sortOrd krLt keyed)

/-- clean_and_deduplicate for dataset_type "assets". -/
def clean_and_deduplicate_assets (rows : List AssetRow) : Except ConvErr (List AssetRow) :=
  (assetKeyed (filterAsset rows)).map fun keyed => uniqueFirstByKey [] (sortOrd krLt keyed)

/-- Claim-side definition, from the spec's words: the DedupKey as the
concatenation of the textual form of each billionaires identity field,
null rendered as the empty string, joined by the `|` delimiter. -/
def specDedupKeyBill (r : BillRow) : Str :=
  fillNull r.date ++ '|' :: (fillNull r.personName ++ '|' :: fillNull r.lastName)

/- ## Compactor (convert_to_parquet sort step) -/

/-- Per-column ascending order with `nulls_last=False`: a null cell sorts
before every value. -/
def nullsFirstLt (lt : α → α → Bool) : Option α → Option α → Bool
  | none, none => false
  | none, some _ => true
  | some _, none => false
  | some a, some b => lt a b

/-- Lexicographic order over the configured key column list. -/
def keyLexLt (lt : α → α → Bool) : List (Option α) → List (Option α) → Bool
  | [], _ => false
  | _ :: _, [] => false
  | a :: s, b :: t =>
    if nullsFirstLt lt a b then true
    else if nullsFirstLt lt b a then false
    else keyLexLt lt s t

/-- The Compactor, `df_final.sort(sort_columns)`: sort of the rows by the
configured key columns, ascending, nulls first (polars default
`nulls_last=False`), parametric in the per-value order the column type
induces.  The source leaves `maintain_order=False`, so polars guarantees
no particular order among equal-key rows; the insertion sort here realizes
one admissible output order, and only properties that hold for every
admissible order (permutation, sortedness) are asserted of it. -/
def compact (key : ρ → List (Option α)) (lt : α → α → Bool) (rows : List ρ) : List ρ :=
  sortOrd (fun a b => keyLexLt lt (key a) (key b)) rows

/-- Boolean sortedness check for a comparator: no later element is
strictly before its predecessor. -/
def sortedChk (lt : α → α → Bool) : List α → Bool
  | [] => true
  | [_] => true
  | a :: b :: t => !lt b a && sortedChk lt (b :: t)

/- ## Sample rows used in concrete evaluations -/

/-- A person row with a large finalWorth. -/
def billRowHigh : BillRow :=
  ⟨some "20240101".toList, some "Alice".toList, some "Smith".toList,
   none, none, none, none, none, some "5000000000.00000000".toList,
   none, none, none, none, none⟩

/-- The same identity with a null finalWorth. -/
def billRowNullWorth : BillRow := { billRowHigh with finalWorth := none }

/-- A person row with a null date. -/
def billRowNullDate : BillRow :=
  ⟨none, some "A".toList, some "B".toList,
   none, none, none, none, none, none, none, none, none, none, none⟩

/-- The same identity with an empty-string date. -/
def billRowEmptyDate : BillRow := { billRowNullDate with date := some [] }

/-- A well-named person row. -/
def billRowPlain : BillRow :=
  ⟨some "20240101".toList, some "Bob".toList, none,
   none, none, none, none, none, none, none, none, none, none, none⟩

/-- A well-named asset row. -/
def assetRowPlain : AssetRow :=
  ⟨some "20240101".toList, some "Bob".toList, some "10.00".toList,
   none, none, some "AAPL".toList, none, none, none, none⟩

/- ## Digit arithmetic lemmas -/

theorem digitsToNat_append (x y : List Nat) :
    digitsToNat (x ++ y) = digitsToNat x * 10 ^ y.length + digitsToNat y := by
  induction x with
  | nil => simp [digitsToNat]
  | cons a t ih =>
    simp only [List.cons_append, digitsToNat, ih, List.append_eq, List.length_append]
    ring

theorem digitsToNat_lt (l : List Nat) (h : ∀ d ∈ l, d < 10) :
    digitsToNat l < 10 ^ l.length := by
  induction l with
  | nil => simp [digitsToNat]
  | cons a t ih =>
    have ha : a < 10 := h a (List.mem_cons_self a t)
    have ht : digitsToNat t < 10 ^ t.length := ih fun d hd => h d (List.mem_cons_of_mem a hd)
    simp only [digitsToNat, List.length_cons]
    calc a * 10 ^ t.length + digitsToNat t
        < a * 10 ^ t.length + 10 ^ t.length := by omega
      _ = (a + 1) * 10 ^ t.length := by ring
      _ ≤ 10 * 10 ^ t.length := Nat.mul_le_mul_right _ (by omega)
      _ = 10 ^ (t.length + 1) := by ring

theorem digitsToNat_replicate_zero (k : Nat) : digitsToNat (List.replicate k 0) = 0 := by
  induction k with
  | zero => rfl
  | succ n ih => simpa [List.replicate_succ, digitsToNat] using ih

theorem digitsToNat_padDigits (k : Nat) (l : List Nat) :
    digitsToNat (padDigits k l) = digitsToNat l := by
  simp [padDigits, digitsToNat_append, digitsToNat_replicate_zero]

theorem padDigits_length (k : Nat) (l : List Nat) (h : l.length ≤ k) :
    (padDigits k l).length = k := by
  simp [padDigits]
  omega

theorem mem_padDigits (k : Nat) (l : List Nat) (d : Nat) (hd : d ∈ padDigits k l) :
    d = 0 ∨ d ∈ l := by
  simp only [padDigits, List.mem_append, List.mem_replicate] at hd
  tauto

theorem natToDigitsGo_spec : ∀ (fuel n : Nat), 0 < fuel → n < 10 ^ fuel →
    digitsToNat (natToDigitsGo fuel n) = n ∧
    (∀ d ∈ natToDigitsGo fuel n, d < 10) ∧
    natToDigitsGo fuel n ≠ [] ∧
    (n ≠ 0 → (natToDigitsGo fuel n).head? ≠ some 0) := by
  intro fuel
  induction fuel with
  | zero => intro n hf _; omega
  | succ f ih =>
    intro n _ h
    by_cases h10 : n < 10
    · refine ⟨by simp [natToDigitsGo, h10, digitsToNat], ?_, ?_, ?_⟩
      · intro d hd
        simp [natToDigitsGo, h10] at hd
        omega
      · simp [natToDigitsGo, h10]
      · intro h0
        simp [natToDigitsGo, h10]
        exact h0
    · have hf : 0 < f := by
        rcases Nat.eq_zero_or_pos f with h0 | h0
        · subst h0; simp at h; omega
        · exact h0
      have hdiv : n / 10 < 10 ^ f := by
        rw [Nat.div_lt_iff_lt_mul (by norm_num)]
        calc n < 10 ^ (f + 1) := h
          _ = 10 ^ f * 10 := by ring
      obtain ⟨hv, hdig, hne, hhead⟩ := ih (n / 10) hf hdiv
      have hgo : natToDigitsGo (f + 1) n = natToDigitsGo f (n / 10) ++ [n % 10] := by
        simp [natToDigitsGo, h10]
      refine ⟨?_, ?_, ?_, ?_⟩
      · rw [hgo, digitsToNat_append, hv]
        simp [digitsToNat]
        omega
      · intro d hd
        rw [hgo] at hd
        rcases List.mem_append.mp hd with hmem | hmem
        · exact hdig d hmem
        · simp at hmem; omega
      · rw [hgo]; simp
      · intro _
        rw [hgo]
        cases hc : natToDigitsGo f (n / 10) with
        | nil => exact absurd hc hne
        | cons a t =>
          have := hhead (by omega)
          rw [hc] at this
          simpa using this

theorem natToDigits_spec (n : Nat) :
    digitsToNat (natToDigits n) = n ∧ (∀ d ∈ natToDigits n, d < 10) ∧
    natToDigits n ≠ [] ∧ (n ≠ 0 → (natToDigits n).head? ≠ some 0) := by
  refine natToDigitsGo_spec (n + 1) n (Nat.succ_pos n) ?_
  calc n < 2 ^ n := Nat.lt_two_pow n
    _ ≤ 10 ^ n := Nat.pow_le_pow_left (by norm_num) n
    _ ≤ 10 ^ (n + 1) := Nat.pow_le_pow_right (by norm_num) (Nat.le_succ n)

theorem digitsToNat_head_ge (l : List Nat) (hne : l ≠ []) (hh : l.head? ≠ some 0) :
    10 ^ (l.length - 1) ≤ digitsToNat l := by
  cases l with
  | nil => exact absurd rfl hne
  | cons a t =>
    have ha : a ≠ 0 := by
      intro h
      exact hh (by simp [h])
    simp only [digitsToNat, List.length_cons, Nat.succ_sub_one]
    have : 1 * 10 ^ t.length ≤ a * 10 ^ t.length := Nat.mul_le_mul_right _ (by omega)
    omega

theorem natToDigits_len_le (n s : Nat) (hs : 1 ≤ s) (h : n < 10 ^ s) :
    (natToDigits n).length ≤ s := by
  by_cases h0 : n = 0
  · subst h0
    have : natToDigits 0 = [0] := rfl
    rw [this]
    simpa using hs
  · obtain ⟨hv, _, hne, hhead⟩ := natToDigits_spec n
    by_contra hlen
    push_neg at hlen
    have hge := digitsToNat_head_ge _ hne (hhead h0)
    rw [hv] at hge
    have : (10 : Nat) ^ s ≤ 10 ^ ((natToDigits n).length - 1) :=
      Nat.pow_le_pow_right (by norm_num) (by omega)
    omega

theorem mul_add_inj (a b x y P : Nat) (hP : 0 < P) (hx : x < P) (hy : y < P)
    (h : a * P + x = b * P + y) : a = b ∧ x = y := by
  rw [mul_comm a P, mul_comm b P] at h
  have ha : (P * a + x) / P = a := by
    rw [Nat.mul_add_div hP, Nat.div_eq_of_lt hx]
    omega
  have hb : (P * b + y) / P = b := by
    rw [Nat.mul_add_div hP, Nat.div_eq_of_lt hy]
    omega
  have hab : a = b := by rw [← ha, ← hb, h]
  subst hab
  exact ⟨rfl, Nat.add_left_cancel h⟩

theorem digits_fixed_len_eq : ∀ (l1 l2 : List Nat), (∀ d ∈ l1, d < 10) → (∀ d ∈ l2, d < 10) →
    l1.length = l2.length → digitsToNat l1 = digitsToNat l2 → l1 = l2 := by
  intro l1
  induction l1 with
  | nil =>
    intro l2 _ _ hlen _
    cases l2 with
    | nil => rfl
    | cons b u => simp at hlen
  | cons a t ih =>
    intro l2 h1 h2 hlen hval
    cases l2 with
    | nil => simp at hlen
    | cons b u =>
      have hlen' : t.length = u.length := by simpa using hlen
      simp only [digitsToNat] at hval
      rw [hlen'] at hval
      have ht : digitsToNat t < 10 ^ u.length :=
        hlen' ▸ digitsToNat_lt t (fun d hd => h1 d (List.mem_cons_of_mem _ hd))
      have hu : digitsToNat u < 10 ^ u.length :=
        digitsToNat_lt u (fun d hd => h2 d (List.mem_cons_of_mem _ hd))
      obtain ⟨hab, hxy⟩ := mul_add_inj a b _ _ _ (pow_pos (by norm_num) _) ht hu hval
      rw [hab,
        ih u (fun d hd => h1 d (List.mem_cons_of_mem _ hd))
          (fun d hd => h2 d (List.mem_cons_of_mem _ hd)) hlen' hxy]

theorem digits_no_lead_eq (l1 l2 : List Nat) (h1 : ∀ d ∈ l1, d < 10) (h2 : ∀ d ∈ l2, d < 10)
    (hn1 : l1 ≠ []) (hn2 : l2 ≠ []) (hh1 : l1.head? ≠ some 0) (hh2 : l2.head? ≠ some 0)
    (hval : digitsToNat l1 = digitsToNat l2) : l1 = l2 := by
  have hlen : l1.length = l2.length := by
    rcases Nat.lt_trichotomy l1.length l2.length with h | h | h
    · exfalso
      have hl1 := digitsToNat_lt l1 h1
      have hge := digitsToNat_head_ge l2 hn2 hh2
      have : (10 : Nat) ^ l1.length ≤ 10 ^ (l2.length - 1) :=
        Nat.pow_le_pow_right (by norm_num) (by omega)
      omega
    · exact h
    · exfalso
      have hl2 := digitsToNat_lt l2 h2
      have hge := digitsToNat_head_ge l1 hn1 hh1
      have : (10 : Nat) ^ l2.length ≤ 10 ^ (l1.length - 1) :=
        Nat.pow_le_pow_right (by norm_num) (by omega)
      omega
  exact digits_fixed_len_eq l1 l2 h1 h2 hlen hval

theorem natToDigits_digitsToNat (l : List Nat) (h : ∀ d ∈ l, d < 10) (hne : l ≠ [])
    (hcan : l = [0] ∨ l.head? ≠ some 0) : natToDigits (digitsToNat l) = l := by
  rcases hcan with h0 | hh
  · subst h0; rfl
  · obtain ⟨hv, hdig, hne2, hhead⟩ := natToDigits_spec (digitsToNat l)
    have hne0 : digitsToNat l ≠ 0 := by
      have := digitsToNat_head_ge l hne hh
      have : 0 < 10 ^ (l.length - 1) := pow_pos (by norm_num) _
      omega
    exact digits_no_lead_eq _ l hdig h hne2 hne (hhead hne0) hh hv

theorem padDigits_natToDigits (l : List Nat) (h : ∀ d ∈ l, d < 10) (hne : l ≠ []) :
    padDigits l.length (natToDigits (digitsToNat l)) = l := by
  obtain ⟨hv, hdig, _, _⟩ := natToDigits_spec (digitsToNat l)
  apply digits_fixed_len_eq
  · intro d hd
    rcases mem_padDigits _ _ _ hd with h0 | hmem
    · omega
    · exact hdig d hmem
  · exact h
  · apply padDigits_length
    exact natToDigits_len_le _ _ (List.length_pos.mpr hne) (hv ▸ digitsToNat_lt l h)
  · rw [digitsToNat_padDigits, hv]

/- ## Claim C2 -/

/-- Claim C2: for every Decimal field, a non-empty literal with more
fractional digits than the scale is a PrecisionOverflow error, and a
literal (with in-scale fraction) whose significant digit count exceeds the
precision is a RangeOverflow error; the value is never silently truncated
or nulled.  In particular "123456789012345678.9" at precision 18 / scale 8
is a RangeOverflow and "1.123456789" at scale 8 is a PrecisionOverflow. -/
theorem C2_decimal_overflow :
    (∀ (s : Str) (precision scale : Nat) (neg : Bool) (I F : List Nat),
        decLex s = some (neg, I, F) → scale < F.length →
        parseDecimal s precision scale = .error .precisionOverflow) ∧
    (∀ (s : Str) (precision scale : Nat) (neg : Bool) (I F : List Nat),
        decLex s = some (neg, I, F) → F.length ≤ scale →
        precision < natDigitCount (digitsToNat (I ++ F)) →
        parseDecimal s precision scale = .error .rangeOverflow) ∧
    parseDecimal ("123456789012345678.9".toList) 18 8 = .error .rangeOverflow ∧
    parseDecimal ("1.123456789".toList) 18 8 = .error .precisionOverflow := by
  refine ⟨?_, ?_, rfl, rfl⟩
  · intro s precision scale neg I F hlex hF
    unfold parseDecimal
    rw [hlex]
    simp [hF]
  · intro s precision scale neg I F hlex hF hsig
    unfold parseDecimal
    rw [hlex]
    simp [Nat.not_lt.mpr hF, hsig]

/-- Witness for C2 at the concrete input "1.123456789". -/
theorem C2_witness :
    parseDecimal ("1.123456789".toList) 18 8 = .error .precisionOverflow :=
  C2_decimal_overflow.1 ("1.123456789".toList) 18 8 false [1]
    [1, 2, 3, 4, 5, 6, 7, 8, 9] (by rfl) (by decide)

/- ## Claim C3 -/

/-- Claim C3 (evidence of divergence): within a DedupKey group the code
keeps the record whose ranking value sorts first, and with the polars
default `nulls_last=False` a null finalWorth sorts before every value in
the descending ranking column, so the null-worth record is kept over the
5000000000.00000000 one — the greatest non-null value does not win. -/
theorem C3_dedup_keeps_null_worth :
    clean_and_deduplicate_billionaires [billRowHigh, billRowNullWorth] =
      .ok [billRowNullWorth] ∧
    billRowNullWorth.finalWorth = none ∧
    billRowHigh.finalWorth = some ("5000000000.00000000".toList) ∧
    billKey billRowHigh = billKey billRowNullWorth :=
  ⟨rfl, rfl, rfl, rfl⟩

/- ## Claim C6 -/

/-- Claim C6 (evidence of divergence): the birthDate conversion evaluates
the epoch branch's strict `cast(pl.Int64)` over the whole column, so the
column "1975-06-12" fails the conversion instead of parsing as YYYY-MM-DD,
and "not-a-date" fails it instead of resolving to Null; the all-digit
epoch value "946684800000" does convert to 2000-01-01 by floor division. -/
theorem C6_birthdate_column_aborts :
    birthCol [some ("1975-06-12".toList)] = .error .castFailed ∧
    birthCol [some ("946684800000".toList)] = .ok [some (TValue.vDate 2000 1 1)] ∧
    birthCol [some ("not-a-date".toList)] = .error .castFailed :=
  ⟨rfl, rfl, rfl⟩

/- ## Sorting and dedup lemmas -/

theorem insertOrd_perm (lt : α → α → Bool) (a : α) (l : List α) :
    List.Perm (insertOrd lt a l) (a :: l) := by
  induction l with
  | nil => exact List.Perm.refl _
  | cons b t ih =>
    unfold insertOrd
    by_cases h : lt b a
    · rw [if_pos h]
      exact (ih.cons b).trans (List.Perm.swap a b t)
    · rw [if_neg h]

theorem sortOrd_perm (lt : α → α → Bool) (l : List α) :
    List.Perm (sortOrd lt l) l := by
  induction l with
  | nil => exact List.Perm.refl _
  | cons a t ih => exact (insertOrd_perm lt a _).trans (ih.cons a)

theorem mem_sortOrd (lt : α → α → Bool) (l : List α) (x : α) :
    x ∈ sortOrd lt l ↔ x ∈ l :=
  (sortOrd_perm lt l).mem_iff

theorem uniqueFirst_sub {ρ : Type} :
    ∀ (seen : List (Option Str)) (l : List (KRow ρ)) (r : ρ),
      r ∈ uniqueFirstByKey seen l → ∃ k d, (r, k, d) ∈ l := by
  intro seen l
  induction l generalizing seen with
  | nil =>
    intro r h
    simp [uniqueFirstByKey] at h
  | cons a t ih =>
    intro r h
    obtain ⟨r0, k0, d0⟩ := a
    unfold uniqueFirstByKey at h
    by_cases hk : k0 ∈ seen
    · rw [if_pos hk] at h
      obtain ⟨k, d, hm⟩ := ih seen r h
      exact ⟨k, d, List.mem_cons_of_mem _ hm⟩
    · rw [if_neg hk] at h
      rcases List.mem_cons.mp h with h | h
      · exact ⟨k0, d0, h ▸ List.mem_cons_self _ _⟩
      · obtain ⟨k, d, hm⟩ := ih (k0 :: seen) r h
        exact ⟨k, d, List.mem_cons_of_mem _ hm⟩

theorem uniqueFirst_keys {ρ : Type} (f : ρ → Option Str) :
    ∀ (seen : List (Option Str)) (l : List (KRow ρ)),
      (∀ x ∈ l, x.2.1 = f x.1) →
      (∀ r ∈ uniqueFirstByKey seen l, f r ∉ seen) ∧
      List.Pairwise (fun a b => f a ≠ f b) (uniqueFirstByKey seen l) := by
  intro seen l
  induction l generalizing seen with
  | nil =>
    intro _
    refine ⟨?_, ?_⟩
    · intro r h
      simp [uniqueFirstByKey] at h
    · exact List.Pairwise.nil
  | cons a t ih =>
    intro hinv
    obtain ⟨r0, k0, d0⟩ := a
    have hk0 : k0 = f r0 := hinv (r0, k0, d0) (List.mem_cons_self _ _)
    have hinv' : ∀ x ∈ t, x.2.1 = f x.1 := fun x hx => hinv x (List.mem_cons_of_mem _ hx)
    unfold uniqueFirstByKey
    by_cases hk : k0 ∈ seen
    · rw [if_pos hk]
      exact ih seen hinv'
    · rw [if_neg hk]
      obtain ⟨hnot, hpair⟩ := ih (k0 :: seen) hinv'
      refine ⟨?_, ?_⟩
      · intro r hr
        rcases List.mem_cons.mp hr with h | h
        · rw [h, ← hk0]
          exact hk
        · intro hc
          exact hnot r h (List.mem_cons_of_mem _ hc)
      · refine List.Pairwise.cons ?_ hpair
        intro b hb
        have hb' := hnot b hb
        rw [← hk0]
        intro hc
        exact hb' (hc ▸ List.mem_cons_self _ _)

theorem exceptMapM_mem {α β : Type} {f : α → Except ConvErr β} :
    ∀ (l : List α) (out : List β), exceptMapM f l = .ok out →
      ∀ b ∈ out, ∃ a ∈ l, f a = .ok b := by
  intro l
  induction l with
  | nil =>
    intro out h b hb
    simp [exceptMapM] at h
    subst h
    simp at hb
  | cons a t ih =>
    intro out h b hb
    unfold exceptMapM at h
    cases hfa : f a with
    | error e =>
      rw [hfa] at h
      simp at h
    | ok b0 =>
      rw [hfa] at h
      cases hrec : exceptMapM f t with
      | error e =>
        rw [hrec] at h
        simp at h
      | ok bs =>
        rw [hrec] at h
        simp at h
        subst h
        rcases List.mem_cons.mp hb with h | h
        · exact ⟨a, List.mem_cons_self _ _, h ▸ hfa⟩
        · obtain ⟨a', ha', hfa'⟩ := ih bs hrec b h
          exact ⟨a', List.mem_cons_of_mem _ ha', hfa'⟩

theorem keyed_inv {ρ : Type} (fkey : ρ → Option Str) (fdec : ρ → Except ConvErr (Option Int))
    (rows : List ρ) (keyed : List (KRow ρ))
    (h : exceptMapM (fun r => (fdec r).map fun d => (r, fkey r, d)) rows = .ok keyed) :
    ∀ x ∈ keyed, x.2.1 = fkey x.1 ∧ x.1 ∈ rows := by
  intro x hx
  obtain ⟨r, hr, hfr⟩ := exceptMapM_mem rows keyed h x hx
  cases hd : fdec r with
  | error e =>
    rw [hd] at hfr
    simp [Except.map] at hfr
  | ok d =>
    rw [hd] at hfr
    simp [Except.map] at hfr
    rw [← hfr]
    exact ⟨rfl, hr⟩

theorem clean_bill_mem (rows out : List BillRow)
    (h : clean_and_deduplicate_billionaires rows = .ok out) (r : BillRow) (hr : r ∈ out) :
    r ∈ filterBill rows := by
  unfold clean_and_deduplicate_billionaires at h
  cases hk : billKeyed (filterBill rows) with
  | error e =>
    rw [hk] at h
    simp [Except.map] at h
  | ok keyed =>
    rw [hk] at h
    simp [Except.map] at h
    rw [← h] at hr
    obtain ⟨k, d, hm⟩ := uniqueFirst_sub [] _ r hr
    exact (keyed_inv billKey billDecVal _ _ hk (r, k, d) ((mem_sortOrd _ _ _).mp hm)).2

theorem clean_asset_mem (rows out : List AssetRow)
    (h : clean_and_deduplicate_assets rows = .ok out) (r : AssetRow) (hr : r ∈ out) :
    r ∈ filterAsset rows := by
  unfold clean_and_deduplicate_assets at h
  cases hk : assetKeyed (filterAsset rows) with
  | error e =>
    rw [hk] at h
    simp [Except.map] at h
  | ok keyed =>
    rw [hk] at h
    simp [Except.map] at h
    rw [← h] at hr
    obtain ⟨k, d, hm⟩ := uniqueFirst_sub [] _ r hr
    exact (keyed_inv assetKey assetDecVal _ _ hk (r, k, d) ((mem_sortOrd _ _ _).mp hm)).2

/- ## Claim C4 -/

/-- Claim C4 (counterexample): a record with a Null date and a record with
an empty-string date carry the same spec DedupKey (Null rendered as the
empty string), yet the engine keeps both, because the code's key is Null
for the first record (concat_str propagates the un-filled null date) and
"|A|B" for the second. -/
theorem C4_counterexample :
    clean_and_deduplicate_billionaires [billRowNullDate, billRowEmptyDate] =
      .ok [billRowNullDate, billRowEmptyDate] ∧
    specDedupKeyBill billRowNullDate = specDedupKeyBill billRowEmptyDate ∧
    billRowNullDate ≠ billRowEmptyDate :=
  ⟨rfl, rfl, by decide⟩

/-- Claim C4 as amended: the output of the Deduplication Engine never
contains two records with the same grouping key as the code builds it —
Null when the date field is Null (all Null-keyed records form one group),
otherwise the identity fields joined by the `|` delimiter with Null
non-date fields rendered as empty strings. -/
theorem C4_keys_pairwise_distinct :
    (∀ (rows out : List BillRow), clean_and_deduplicate_billionaires rows = .ok out →
        out.Pairwise (fun a b => billKey a ≠ billKey b)) ∧
    (∀ (rows out : List AssetRow), clean_and_deduplicate_assets rows = .ok out →
        out.Pairwise (fun a b => assetKey a ≠ assetKey b)) := by
  constructor
  · intro rows out h
    unfold clean_and_deduplicate_billionaires at h
    cases hk : billKeyed (filterBill rows) with
    | error e =>
      rw [hk] at h
      simp [Except.map] at h
    | ok keyed =>
      rw [hk] at h
      simp [Except.map] at h
      rw [← h]
      have hinv : ∀ x ∈ sortOrd krLt keyed, x.2.1 = billKey x.1 := fun x hx =>
        (keyed_inv billKey billDecVal _ _ hk x ((mem_sortOrd _ _ _).mp hx)).1
      exact (uniqueFirst_keys billKey [] _ hinv).2
  · intro rows out h
    unfold clean_and_deduplicate_assets at h
    cases hk : assetKeyed (filterAsset rows) with
    | error e =>
      rw [hk] at h
      simp [Except.map] at h
    | ok keyed =>
      rw [hk] at h
      simp [Except.map] at h
      rw [← h]
      have hinv : ∀ x ∈ sortOrd krLt keyed, x.2.1 = assetKey x.1 := fun x hx =>
        (keyed_inv assetKey assetDecVal _ _ hk x ((mem_sortOrd _ _ _).mp hx)).1
      exact (uniqueFirst_keys assetKey [] _ hinv).2

/-- Witness for C4 at a concrete one-row input. -/
theorem C4_witness :
    List.Pairwise (fun a b => billKey a ≠ billKey b) [billRowPlain] :=
  C4_keys_pairwise_distinct.1 [billRowPlain] [billRowPlain] rfl

/- ## Claim C7 -/

/-- Claim C7: a record whose identity-name fields are all Null or empty
(personName and lastName for "person", personName for "asset") is dropped
by the garbage filter before key construction and never appears in the
output, and every record with at least one non-empty identity-name field
passes this filter. -/
theorem C7_garbage_filter :
    (∀ (rows : List BillRow) (r : BillRow),
        r ∈ filterBill rows ↔ r ∈ rows ∧ billGarbage r = false) ∧
    (∀ (rows out : List BillRow) (r : BillRow),
        clean_and_deduplicate_billionaires rows = .ok out → r ∈ out →
        billGarbage r = false) ∧
    (∀ (rows : List AssetRow) (r : AssetRow),
        r ∈ filterAsset rows ↔ r ∈ rows ∧ assetGarbage r = false) ∧
    (∀ (rows out : List AssetRow) (r : AssetRow),
        clean_and_deduplicate_assets rows = .ok out → r ∈ out →
        assetGarbage r = false) := by
  refine ⟨?_, ?_, ?_, ?_⟩
  · intro rows r
    simp [filterBill, List.mem_filter, Bool.not_eq_true']
  · intro rows out r h hr
    have := clean_bill_mem rows out h r hr
    simp [filterBill, List.mem_filter, Bool.not_eq_true'] at this
    exact this.2
  · intro rows r
    simp [filterAsset, List.mem_filter, Bool.not_eq_true']
  · intro rows out r h hr
    have := clean_asset_mem rows out h r hr
    simp [filterAsset, List.mem_filter, Bool.not_eq_true'] at this
    exact this.2

/-- Witness for C7 at a concrete one-row input. -/
theorem C7_witness : billGarbage billRowPlain = false :=
  C7_garbage_filter.2.1 [billRowPlain] [billRowPlain] billRowPlain rfl
    (List.mem_singleton.mpr rfl)

/- ## Claim C10 -/

/-- Claim C10: every record in the Deduplication Engine's output is
field-for-field one of the input records — deduplication removes whole
records and never alters a field, and the output rows carry exactly the
input's columns (the temporary dedup key and decimal ranking columns live
only inside the engine; the value field comes back as its original
string). -/
theorem C10_records_unchanged :
    (∀ (rows out : List BillRow) (r : BillRow),
        clean_and_deduplicate_billionaires rows = .ok out → r ∈ out → r ∈ rows) ∧
    (∀ (rows out : List AssetRow) (r : AssetRow),
        clean_and_deduplicate_assets rows = .ok out → r ∈ out → r ∈ rows) := by
  constructor
  · intro rows out r h hr
    exact (List.mem_filter.mp (clean_bill_mem rows out h r hr)).1
  · intro rows out r h hr
    exact (List.mem_filter.mp (clean_asset_mem rows out h r hr)).1

/-- Witness for C10 at a concrete one-row input. -/
theorem C10_witness : assetRowPlain ∈ [assetRowPlain] :=
  C10_records_unchanged.2 [assetRowPlain] [assetRowPlain] assetRowPlain rfl
    (List.mem_singleton.mpr rfl)

/- ## Compactor lemmas -/

theorem nullsFirstLt_asym {α : Type} (lt : α → α → Bool)
    (h : ∀ a b, lt a b = true → lt b a = false) :
    ∀ x y, nullsFirstLt lt x y = true → nullsFirstLt lt y x = false := by
  intro x y hxy
  rcases x with _ | a <;> rcases y with _ | b
  · simp [nullsFirstLt] at hxy
  · rfl
  · simp [nullsFirstLt] at hxy
  · exact h a b hxy

theorem keyLexLt_asym {α : Type} (lt : α → α → Bool)
    (h : ∀ a b, lt a b = true → lt b a = false) :
    ∀ (u v : List (Option α)), keyLexLt lt u v = true → keyLexLt lt v u = false := by
  intro u
  induction u with
  | nil =>
    intro v hv
    simp [keyLexLt] at hv
  | cons a s ih =>
    intro v hv
    cases v with
    | nil => simp [keyLexLt] at hv
    | cons b t =>
      cases h1 : nullsFirstLt lt a b with
      | true =>
        have h2 : nullsFirstLt lt b a = false := nullsFirstLt_asym lt h a b h1
        simp [keyLexLt, h1, h2]
      | false =>
        cases h2 : nullsFirstLt lt b a with
        | true => simp [keyLexLt, h1, h2] at hv
        | false =>
          simp [keyLexLt, h1, h2] at hv ⊢
          exact ih t hv

theorem sortedChk_tail (c : α → α → Bool) (b : α) (t : List α)
    (h : sortedChk c (b :: t) = true) : sortedChk c t = true := by
  cases t with
  | nil => rfl
  | cons x u =>
    have := h
    simp [sortedChk] at this
    exact this.2

theorem sortedChk_cons_head (c : α → α → Bool) (a b : α) (t : List α)
    (hab : c a b = false) (hxb : ∀ x u, t = x :: u → c x b = false)
    (hins : sortedChk c (insertOrd c a t) = true) :
    sortedChk c (b :: insertOrd c a t) = true := by
  cases t with
  | nil => simp [insertOrd, sortedChk, hab]
  | cons x u =>
    have hx : c x b = false := hxb x u rfl
    cases hxa : c x a with
    | true =>
      have hin : insertOrd c a (x :: u) = x :: insertOrd c a u := by
        simp [insertOrd, hxa]
      rw [hin] at hins ⊢
      simp only [sortedChk, hx, Bool.not_false, Bool.true_and]
      exact hins
    | false =>
      have hin : insertOrd c a (x :: u) = a :: x :: u := by
        simp [insertOrd, hxa]
      rw [hin] at hins ⊢
      simp only [sortedChk, hab, Bool.not_false, Bool.true_and]
      simp only [sortedChk] at hins
      exact hins

theorem insertOrd_sorted (c : α → α → Bool)
    (hasym : ∀ a b, c a b = true → c b a = false) (a : α) :
    ∀ (l : List α), sortedChk c l = true → sortedChk c (insertOrd c a l) = true := by
  intro l
  induction l with
  | nil => intro _; rfl
  | cons b t ih =>
    intro hs
    unfold insertOrd
    cases hba : c b a with
    | false => simp [sortedChk, hba, hs]
    | true =>
      simp only [if_pos rfl]
      have htail : sortedChk c t = true := sortedChk_tail c b t hs
      have hins := ih htail
      have hab : c a b = false := hasym b a hba
      refine sortedChk_cons_head c a b t hab ?_ hins
      intro x u hxu
      subst hxu
      simp [sortedChk] at hs
      exact hs.1

theorem sortOrd_sorted (c : α → α → Bool)
    (hasym : ∀ a b, c a b = true → c b a = false) (l : List α) :
    sortedChk c (sortOrd c l) = true := by
  induction l with
  | nil => rfl
  | cons a t ih => exact insertOrd_sorted c hasym a _ ih

/- ## Claim C5 -/

/-- Claim C5 (counterexample): the Compactor sorts with the polars default
`nulls_last=False`, so a row whose key is Null comes FIRST, not last: on
two rows with keys `["a"]` and `[Null]` the null-keyed row leads the
output, contradicting "Null keys placed last". -/
theorem C5_counterexample :
    compact id strLtB [[some ("a".toList)], [none]] = [[none], [some ("a".toList)]] ∧
    [[none], [some ("a".toList)]] ≠ [[some ("a".toList)], [none]] :=
  ⟨rfl, by decide⟩

/-- Claim C5 as amended: for every dataset and every configured key-column
list (modelled by a key projection and an asymmetric per-value order), the
Compactor returns a permutation of its input — no record added, removed or
modified — ordered ascending by the key columns with Null keys placed
FIRST (the polars default `nulls_last=False`).  The original claim's
stable-sort and identical-order-on-repetition clauses are not asserted:
the source calls `sort` without `maintain_order`, so the relative order of
equal-key rows is not guaranteed, and only properties independent of that
order are claimed — the conclusions below hold for every output order the
source's sort may produce. -/
theorem C5_compactor_amended :
    ∀ {α ρ : Type} (key : ρ → List (Option α)) (lt : α → α → Bool),
      (∀ a b, lt a b = true → lt b a = false) →
      ∀ (rows : List ρ),
        List.Perm (compact key lt rows) rows ∧
        sortedChk (fun a b => keyLexLt lt (key a) (key b)) (compact key lt rows) = true := by
  intro α ρ key lt hasym rows
  have hasym' : ∀ a b : ρ,
      keyLexLt lt (key a) (key b) = true → keyLexLt lt (key b) (key a) = false :=
    fun a b h => keyLexLt_asym lt hasym _ _ h
  exact ⟨sortOrd_perm _ _, sortOrd_sorted _ hasym' rows⟩

/-- Witness for C5 at a concrete two-row input over boolean keys. -/
theorem C5_witness :
    List.Perm (compact id (fun a b : Bool => !a && b) [[some true], [none]])
      [[some true], [none]] ∧
    sortedChk
      (fun u v : List (Option Bool) => keyLexLt (fun a b : Bool => !a && b) (id u) (id v))
      (compact id (fun a b : Bool => !a && b) [[some true], [none]]) = true :=
  C5_compactor_amended id (fun a b : Bool => !a && b) (by decide) [[some true], [none]]

/- ## Canonicalizer lemmas -/

theorem convertFrame_fst :
    ∀ (schema : List (Str × PlType)) (frame : Frame) (n : Nat)
      (out : List (Str × List (Option TValue))),
      convertFrame schema frame n = .ok out → out.map Prod.fst = schema.map Prod.fst := by
  intro schema
  induction schema with
  | nil =>
    intro frame n out h
    simp [convertFrame, exceptMapM] at h
    rw [h]
    rfl
  | cons p t ih =>
    intro frame n out h
    unfold convertFrame exceptMapM at h
    cases hc : convertColumn frame n p.1 p.2 with
    | error e =>
      rw [hc] at h
      simp [Except.map] at h
    | ok col =>
      rw [hc] at h
      cases hrec : exceptMapM
          (fun p => (convertColumn frame n p.1 p.2).map fun c => (p.1, c)) t with
      | error e =>
        rw [hrec] at h
        simp [Except.map] at h
      | ok outs =>
        rw [hrec] at h
        simp [Except.map] at h
        rw [← h]
        have := ih frame n outs hrec
        simp [this]

theorem convertFrame_mem :
    ∀ (schema : List (Str × PlType)) (frame : Frame) (n : Nat) (c : Str) (ty : PlType)
      (out : List (Str × List (Option TValue))),
      (c, ty) ∈ schema → convertFrame schema frame n = .ok out →
      frameLookup c frame = none → (c, List.replicate n none) ∈ out := by
  intro schema
  induction schema with
  | nil =>
    intro frame n c ty out hmem _ _
    simp at hmem
  | cons p t ih =>
    intro frame n c ty out hmem h hlk
    unfold convertFrame exceptMapM at h
    cases hc : convertColumn frame n p.1 p.2 with
    | error e =>
      rw [hc] at h
      simp [Except.map] at h
    | ok col =>
      rw [hc] at h
      cases hrec : exceptMapM
          (fun p => (convertColumn frame n p.1 p.2).map fun c => (p.1, c)) t with
      | error e =>
        rw [hrec] at h
        simp [Except.map] at h
      | ok outs =>
        rw [hrec] at h
        simp [Except.map] at h
        rcases List.mem_cons.mp hmem with hp | hp
        · have hp1 : p.1 = c := by rw [← hp]
          have hp2 : p.2 = ty := by rw [← hp]
          rw [← h]
          have : col = List.replicate n none := by
            have hcol := hc
            rw [hp1, hp2] at hcol
            unfold convertColumn at hcol
            rw [hlk] at hcol
            exact (Except.ok.injEq _ _ ▸ hcol.symm : _)
          rw [hp1] at h ⊢
          rw [this]
          exact List.mem_cons_self _ _
        · rw [← h]
          exact List.mem_cons_of_mem _ (ih frame n c ty outs hp hrec hlk)

/- ## Claim C8 -/

/-- Claim C8: for every raw frame and schema, a schema column entirely
absent from the input yields a fully typed-Null column and is never an
error, and the canonicalized output's column order equals the schema's
declared order regardless of the input's column order. -/
theorem C8_missing_column :
    ∀ (schema : List (Str × PlType)) (frame : Frame) (n : Nat) (c : Str) (ty : PlType),
      (c, ty) ∈ schema → frameLookup c frame = none →
      convertColumn frame n c ty = .ok (List.replicate n none) ∧
      ∀ out, convertFrame schema frame n = .ok out →
        out.map Prod.fst = schema.map Prod.fst ∧ (c, List.replicate n none) ∈ out := by
  intro schema frame n c ty hmem hlk
  refine ⟨?_, fun out hout =>
    ⟨convertFrame_fst schema frame n out hout,
     convertFrame_mem schema frame n c ty out hmem hout hlk⟩⟩
  unfold convertColumn
  rw [hlk]

/-- Witness for C8: the person frame lacking the `state` column. -/
theorem C8_witness :
    convertColumn [("date".toList, [some ("20240101".toList)])] 1
        ("state".toList) .pCategorical = .ok (List.replicate 1 none) ∧
    ∀ out, convertFrame get_billionaires_schema
        [("date".toList, [some ("20240101".toList)])] 1 = .ok out →
      out.map Prod.fst = get_billionaires_schema.map Prod.fst ∧
      ("state".toList, List.replicate 1 none) ∈ out :=
  C8_missing_column get_billionaires_schema
    [("date".toList, [some ("20240101".toList)])] 1 ("state".toList) .pCategorical
    (by decide) (by rfl)

/- ## Digit character lemmas -/

theorem digitVal_charOfDigit : ∀ d : Nat, d < 10 → digitVal (charOfDigit d) = some d := by
  decide

theorem charOfDigit_digitVal : ∀ (c : Char) (d : Nat), digitVal c = some d →
    charOfDigit d = c := by
  intro c d h
  unfold digitVal at h
  by_cases h10 : digitTab c < 10
  · rw [if_pos h10] at h
    have hd : digitTab c = d := Option.some.inj h
    rw [← hd]
    unfold digitTab at h10 ⊢
    split <;> simp_all [charOfDigit]
  · rw [if_neg h10] at h
    exact absurd h (by simp)

theorem charOfDigit_props : ∀ d : Nat, d < 10 →
    charOfDigit d ≠ '.' ∧ charOfDigit d ≠ '-' ∧ charOfDigit d ≠ '+' := by
  decide

theorem digitValsOf_map : ∀ (l : List Nat), (∀ d ∈ l, d < 10) →
    digitValsOf (l.map charOfDigit) = some l := by
  intro l
  induction l with
  | nil => intro _; rfl
  | cons d t ih =>
    intro h
    have hd : d < 10 := h d (List.mem_cons_self _ _)
    have ht := ih fun x hx => h x (List.mem_cons_of_mem _ hx)
    simp only [List.map_cons, digitValsOf, digitVal_charOfDigit d hd, ht]

theorem digitValsOf_inv : ∀ (s : Str) (ds : List Nat), digitValsOf s = some ds →
    s = ds.map charOfDigit ∧ ∀ d ∈ ds, d < 10 := by
  intro s
  induction s with
  | nil =>
    intro ds h
    simp [digitValsOf] at h
    subst h
    exact ⟨rfl, by simp⟩
  | cons c t ih =>
    intro ds h
    unfold digitValsOf at h
    cases hc : digitVal c with
    | none => rw [hc] at h; simp at h
    | some d =>
      rw [hc] at h
      cases hrec : digitValsOf t with
      | none => rw [hrec] at h; simp at h
      | some dt =>
        rw [hrec] at h
        simp at h
        obtain ⟨hmap, hlt⟩ := ih dt hrec
        have hd10 : d < 10 := by
          have := charOfDigit_digitVal c d hc
          by_contra h10
          push_neg at h10
          have h9 : charOfDigit d = '9' := by
            unfold charOfDigit
            rcases d with _ | _ | _ | _ | _ | _ | _ | _ | _ | _ | e
            all_goals first | omega | rfl
          rw [h9] at this
          rw [← this] at hc
          simp [digitVal] at hc
          omega
        rw [← h]
        constructor
        · simp [List.map_cons, charOfDigit_digitVal c d hc, hmap]
        · intro x hx
          rcases List.mem_cons.mp hx with hx | hx
          · omega
          · exact hlt x hx

/- ## Claim C9 -/

/-- Claim C9: the "date" field parser accepts exactly the 8-digit
YYYYMMDD strings forming a strict calendar date; any other value resolves
to Null and the column conversion itself always succeeds (strict=False),
so a bad date never aborts the row or the run. -/
theorem C9_date_field_strict :
    (∀ (col : List (Option Str)), dateCol8 col = .ok (col.map dateEntry8)) ∧
    (∀ s : Str, (parse8 s).isSome = true ↔ specStrictDate s) := by
  constructor
  · intro col
    rfl
  · intro s
    constructor
    · intro h
      unfold parse8 at h
      cases hv : digitValsOf s with
      | none => rw [hv] at h; simp at h
      | some ds =>
        rw [hv] at h
        obtain ⟨hs, hd⟩ := digitValsOf_inv s ds hv
        rcases ds with _ | ⟨y1, _ | ⟨y2, _ | ⟨y3, _ | ⟨y4, _ | ⟨m1, _ | ⟨m2, _ |
          ⟨d1, _ | ⟨d2, _ | ⟨x, rest⟩⟩⟩⟩⟩⟩⟩⟩⟩ <;> try simp at h
      -- only the exactly-8 case remains
        cases hvc : validCivil (digitsToNat [y1, y2, y3, y4]) (digitsToNat [m1, m2])
            (digitsToNat [d1, d2]) with
        | false => rw [hvc] at h; simp at h
        | true =>
          refine ⟨[y1, y2, y3, y4, m1, m2, d1, d2], hs, rfl, hd, ?_⟩
          simpa using hvc
    · rintro ⟨ds, hs, hlen, hd, hvc⟩
      subst hs
      unfold parse8
      rw [digitValsOf_map ds hd]
      rcases ds with _ | ⟨y1, _ | ⟨y2, _ | ⟨y3, _ | ⟨y4, _ | ⟨m1, _ | ⟨m2, _ |
        ⟨d1, _ | ⟨d2, _ | ⟨x, rest⟩⟩⟩⟩⟩⟩⟩⟩⟩ <;> try simp at hlen
      simp only [List.take, List.drop] at hvc
      simp [hvc]

/- ## Decimal literal lemmas -/

theorem splitDot_no_dot : ∀ (s : Str), (∀ c ∈ s, c ≠ '.') → splitDot s = (s, none) := by
  intro s
  induction s with
  | nil => intro _; rfl
  | cons c t ih =>
    intro h
    have hc : c ≠ '.' := h c (List.mem_cons_self _ _)
    have ht := ih fun x hx => h x (List.mem_cons_of_mem _ hx)
    simp [splitDot, hc, ht]

theorem splitDot_append : ∀ (A B : Str), (∀ c ∈ A, c ≠ '.') →
    splitDot (A ++ '.' :: B) = (A, some B) := by
  intro A B
  induction A with
  | nil => intro _; simp [splitDot]
  | cons c t ih =>
    intro h
    have hc : c ≠ '.' := h c (List.mem_cons_self _ _)
    have ht := ih fun x hx => h x (List.mem_cons_of_mem _ hx)
    simp [splitDot, hc, ht]

theorem map_charOfDigit_no_dot (l : List Nat) (h : ∀ d ∈ l, d < 10) :
    ∀ c ∈ l.map charOfDigit, c ≠ '.' := by
  intro c hc
  obtain ⟨d, hd, hdc⟩ := List.mem_map.mp hc
  rw [← hdc]
  exact (charOfDigit_props d (h d hd)).1

theorem stripSign_renderLit (neg : Bool) (I F : List Nat) (hI : ∀ d ∈ I, d < 10)
    (hne : I ≠ []) :
    stripSign (renderLit neg I F) =
      (neg, I.map charOfDigit ++ (if F.isEmpty then [] else '.' :: F.map charOfDigit)) := by
  cases neg with
  | true => simp [renderLit, stripSign]
  | false =>
    cases I with
    | nil => exact absurd rfl hne
    | cons d t =>
      have hd : d < 10 := hI d (List.mem_cons_self _ _)
      obtain ⟨_, hm, hp⟩ := charOfDigit_props d hd
      simp [renderLit, stripSign, hm, hp]

theorem decLex_renderLit (neg : Bool) (I F : List Nat) (hI : ∀ d ∈ I, d < 10)
    (hF : ∀ d ∈ F, d < 10) (hne : I ≠ []) :
    decLex (renderLit neg I F) = some (neg, I, F) := by
  have hIne : I.isEmpty = false := by
    cases I with
    | nil => exact absurd rfl hne
    | cons d t => rfl
  cases F with
  | nil =>
    unfold decLex
    rw [stripSign_renderLit neg I [] hI hne]
    simp only [List.isEmpty_nil, if_true, List.append_nil]
    rw [splitDot_no_dot _ (map_charOfDigit_no_dot I hI)]
    rw [digitValsOf_map I hI]
    simp [hIne]
  | cons f0 ft =>
    unfold decLex
    rw [stripSign_renderLit neg I (f0 :: ft) hI hne]
    simp only [List.isEmpty_cons, if_false, Bool.false_eq_true]
    rw [splitDot_append _ _ (map_charOfDigit_no_dot I hI)]
    have hFmap : digitValsOf (charOfDigit f0 :: List.map charOfDigit ft) = some (f0 :: ft) :=
      digitValsOf_map (f0 :: ft) hF
    simp [digitValsOf_map I hI, hFmap, hIne]

/- ## Claim C1 -/

/-- Claim C1 (counterexample): the round trip is not the identity on every
in-range decimal string: "00", "-0" and "+1" all parse exactly, but they
format as the canonical "0.00000000", "0.00000000" and "1.00000000", which
differ from the zero-padded originals. -/
theorem C1_counterexample :
    parseDecimal ("00".toList) 18 8 = .ok 0 ∧
    formatDecimal 0 8 = "0.00000000".toList ∧
    padToScale ("00".toList) 8 = "00.00000000".toList ∧
    formatDecimal 0 8 ≠ padToScale ("00".toList) 8 ∧
    parseDecimal ("-0".toList) 18 8 = .ok 0 ∧
    padToScale ("-0".toList) 8 = "-0.00000000".toList ∧
    formatDecimal 0 8 ≠ padToScale ("-0".toList) 8 ∧
    parseDecimal ("+1".toList) 18 8 = .ok 100000000 ∧
    formatDecimal 100000000 8 = "1.00000000".toList ∧
    padToScale ("+1".toList) 8 = "+1.00000000".toList ∧
    formatDecimal 100000000 8 ≠ padToScale ("+1".toList) 8 :=
  ⟨rfl, rfl, rfl, by decide, rfl, rfl, by decide, rfl, rfl, rfl, by decide⟩

/-- Claim C1 as amended: for every decimal string in canonical form — no
'+' sign, no '-' on a zero value, integer part without superfluous leading
zeros, optional nonempty fraction — whose total digit count is at most the
precision and whose fractional digit count is at most the scale, parsing
the string as a Decimal and formatting the result yields the string again
after zero-padding the fraction to exactly scale digits; every
intermediate value is an exact integer, so no binary floating point is
involved at any step. -/
theorem C1_decimal_roundtrip :
    ∀ (neg : Bool) (I F : List Nat) (precision scale : Nat),
      (∀ d ∈ I, d < 10) → (∀ d ∈ F, d < 10) → I ≠ [] →
      (I = [0] ∨ I.head? ≠ some 0) →
      (neg = true → digitsToNat (I ++ F) ≠ 0) →
      I.length + F.length ≤ precision → F.length ≤ scale →
      parseDecimal (renderLit neg I F) precision scale = .ok (decValOf neg I F scale) ∧
      formatDecimal (decValOf neg I F scale) scale = padToScale (renderLit neg I F) scale := by
  intro neg I F precision scale hI hF hne hcan hneg hprec hscale
  have hIF : digitsToNat (I ++ F) = digitsToNat I * 10 ^ F.length + digitsToNat F :=
    digitsToNat_append I F
  have hFvlt : digitsToNat F < 10 ^ F.length := digitsToNat_lt F hF
  have hIFlt : digitsToNat (I ++ F) < 10 ^ (I ++ F).length := by
    refine digitsToNat_lt _ ?_
    intro d hd
    rcases List.mem_append.mp hd with h | h
    · exact hI d h
    · exact hF d h
  have hlen1 : 1 ≤ (I ++ F).length := by
    have := List.length_pos.mpr hne
    simp [List.length_append]
    omega
  have hcount : natDigitCount (digitsToNat (I ++ F)) ≤ precision := by
    unfold natDigitCount
    have h2 : (natToDigits (digitsToNat (I ++ F))).length ≤ (I ++ F).length :=
      natToDigits_len_le _ _ hlen1 hIFlt
    have h3 : (I ++ F).length = I.length + F.length := List.length_append I F
    omega
  have hparse : parseDecimal (renderLit neg I F) precision scale =
      .ok (decValOf neg I F scale) := by
    unfold parseDecimal
    rw [decLex_renderLit neg I F hI hF hne]
    show (if scale < F.length then Except.error ConvErr.precisionOverflow
      else if precision < natDigitCount (digitsToNat (I ++ F)) then
        Except.error ConvErr.rangeOverflow
      else Except.ok (decValOf neg I F scale)) = Except.ok (decValOf neg I F scale)
    rw [if_neg (by omega : ¬ scale < F.length)]
    rw [if_neg (by omega : ¬ precision < natDigitCount (digitsToNat (I ++ F)))]
  refine ⟨hparse, ?_⟩
  have hmdec : digitsToNat (I ++ F) * 10 ^ (scale - F.length) =
      digitsToNat I * 10 ^ scale + digitsToNat F * 10 ^ (scale - F.length) := by
    rw [hIF, add_mul, mul_assoc, ← pow_add]
    have : F.length + (scale - F.length) = scale := by omega
    rw [this]
  have hXlt : digitsToNat F * 10 ^ (scale - F.length) < 10 ^ scale := by
    calc digitsToNat F * 10 ^ (scale - F.length)
        < 10 ^ F.length * 10 ^ (scale - F.length) :=
          (Nat.mul_lt_mul_right
            (pow_pos (by norm_num : (0 : Nat) < 10) (scale - F.length))).mpr hFvlt
      _ = 10 ^ scale := by
          rw [← pow_add]
          congr 1
          omega
  have hdiv : digitsToNat (I ++ F) * 10 ^ (scale - F.length) / 10 ^ scale =
      digitsToNat I := by
    rw [hmdec, mul_comm (digitsToNat I), Nat.mul_add_div (pow_pos (by norm_num) _),
      Nat.div_eq_of_lt hXlt]
    omega
  have hmod : digitsToNat (I ++ F) * 10 ^ (scale - F.length) % 10 ^ scale =
      digitsToNat F * 10 ^ (scale - F.length) := by
    rw [hmdec, mul_comm (digitsToNat I), Nat.mul_add_mod, Nat.mod_eq_of_lt hXlt]
  have habs : (decValOf neg I F scale).natAbs =
      digitsToNat (I ++ F) * 10 ^ (scale - F.length) := by
    unfold decValOf
    cases neg <;> simp [Int.natAbs_mul, Int.natAbs_pow, Int.natAbs_ofNat]
  have hsign : (if decValOf neg I F scale < 0 then ['-'] else ([] : Str)) =
      (if neg then ['-'] else []) := by
    cases neg with
    | false =>
      have hv : decValOf false I F scale =
          ((digitsToNat (I ++ F) * 10 ^ (scale - F.length) : Nat) : Int) := rfl
      have : ¬ decValOf false I F scale < 0 := by
        rw [hv]
        exact not_lt.mpr (Int.natCast_nonneg _)
      simp [this]
    | true =>
      have hm0 : digitsToNat (I ++ F) ≠ 0 := hneg rfl
      have : decValOf true I F scale < 0 := by
        unfold decValOf
        simp only [if_true]
        have h1 : 0 < digitsToNat (I ++ F) * 10 ^ (scale - F.length) :=
          Nat.mul_pos (Nat.pos_of_ne_zero hm0) (pow_pos (by norm_num) _)
        omega
      simp [this]
  have hint : natToDigits (digitsToNat I) = I := natToDigits_digitsToNat I hI hne hcan
  unfold formatDecimal
  rw [habs, hdiv, hint, hsign]
  by_cases hs0 : scale = 0
  · subst hs0
    have hF0 : F = [] := by
      cases F with
      | nil => rfl
      | cons f0 ft => simp at hscale
    subst hF0
    simp only [if_true]
    unfold padToScale
    simp [renderLit]
  · have hnodotI : ∀ c ∈ (if neg then ['-'] else ([] : Str)) ++ I.map charOfDigit,
        c ≠ '.' := by
      intro c hc
      rcases List.mem_append.mp hc with h | h
      · cases neg with
        | true => simp at h; subst h; decide
        | false => simp at h
      · exact map_charOfDigit_no_dot I hI c h
    have hpadz : padDigits scale (natToDigits 0) = List.replicate scale 0 := by
      have h1 : natToDigits 0 = [0] := rfl
      rw [h1]
      unfold padDigits
      have h2 : List.replicate (scale - 1) (0 : Nat) ++ [0] =
          List.replicate (scale - 1 + 1) 0 := (List.replicate_succ' (scale - 1) 0).symm
      have h3 : scale - List.length [(0 : Nat)] = scale - 1 := by simp
      rw [h3, h2]
      congr 1
      omega
    cases F with
    | nil =>
      rw [hmod]
      have hz : digitsToNat ([] : List Nat) * 10 ^ (scale - List.length ([] : List Nat)) =
          0 := by
        simp [digitsToNat]
      rw [hz, hpadz]
      unfold padToScale
      have hnodot : ∀ c ∈ renderLit neg I [], c ≠ '.' := by
        intro c hc
        apply hnodotI c
        simpa [renderLit] using hc
      rw [splitDot_no_dot _ hnodot]
      simp [renderLit, List.map_replicate, hs0, charOfDigit]
    | cons f0 ft =>
      rw [hmod]
      have hfrac : padDigits scale
          (natToDigits (digitsToNat (f0 :: ft) * 10 ^ (scale - (f0 :: ft).length))) =
          (f0 :: ft) ++ List.replicate (scale - (f0 :: ft).length) 0 := by
        obtain ⟨hv', hd', _, _⟩ :=
          natToDigits_spec (digitsToNat (f0 :: ft) * 10 ^ (scale - (f0 :: ft).length))
        apply digits_fixed_len_eq
        · intro d hd
          rcases mem_padDigits _ _ _ hd with h0 | hmem
          · omega
          · exact hd' d hmem
        · intro d hd
          rcases List.mem_append.mp hd with h | h
          · exact hF d h
          · have := List.eq_of_mem_replicate h
            omega
        · rw [padDigits_length]
          · simp only [List.length_append, List.length_replicate]
            have := List.length_pos.mpr (List.cons_ne_nil f0 ft)
            omega
          · exact natToDigits_len_le _ _ (by omega) hXlt
        · rw [digitsToNat_padDigits, hv', digitsToNat_append, digitsToNat_replicate_zero,
            List.length_replicate]
          omega
      rw [hfrac]
      unfold padToScale
      have hsplit : splitDot (renderLit neg I (f0 :: ft)) =
          ((if neg then ['-'] else []) ++ I.map charOfDigit,
            some ((f0 :: ft).map charOfDigit)) := by
        have : renderLit neg I (f0 :: ft) =
            ((if neg then ['-'] else []) ++ I.map charOfDigit) ++
              '.' :: (f0 :: ft).map charOfDigit := by
          simp [renderLit, List.append_assoc]
        rw [this]
        exact splitDot_append _ _ hnodotI
      rw [hsplit]
      simp [List.map_append, List.map_replicate, List.append_assoc, hs0, charOfDigit]

/-- Witness for C1 at the concrete canonical literal "1.5". -/
theorem C1_witness :
    parseDecimal (renderLit false [1] [5]) 18 8 = .ok (decValOf false [1] [5] 8) ∧
    formatDecimal (decValOf false [1] [5] 8) 8 = padToScale (renderLit false [1] [5]) 8 :=
  C1_decimal_roundtrip false [1] [5] 18 8 (by decide) (by decide) (by decide) (by decide)
    (by decide) (by decide) (by decide)

end RedFlags
